import Mathlib

set_option maxHeartbeats 1000000
set_option maxRecDepth 8000

/- Shallow embedding of the next-cut library: `computePerformance` from
   src/src/computePerformance.ts and the swim-standards transformer.
   JavaScript numbers are modelled by `JsNum`: NaN, +Infinity, -Infinity or a
   finite rational (IEEE doubles are modelled by exact rationals; none of the
   verified properties depends on binary rounding of doubles).
   An `Except.error` value models a JavaScript exception escaping a call. -/

inductive JsNum where
  | nan
  | inf
  | ninf
  | fin (q : ℚ)
deriving DecidableEq

namespace JsNum

def isNaN : JsNum → Bool
  | nan => true
  | _ => false

def isFinite : JsNum → Bool
  | fin _ => true
  | _ => false

/-- JavaScript `<` on numbers: every comparison involving NaN is false. -/
def jlt : JsNum → JsNum → Bool
  | nan, _ => false
  | _, nan => false
  | ninf, ninf => false
  | ninf, _ => true
  | _, ninf => false
  | inf, _ => false
  | fin _, inf => true
  | fin a, fin b => decide (a < b)

/-- JavaScript `<=` on numbers: every comparison involving NaN is false. -/
def jle : JsNum → JsNum → Bool
  | nan, _ => false
  | _, nan => false
  | ninf, _ => true
  | _, ninf => false
  | _, inf => true
  | inf, _ => false
  | fin a, fin b => decide (a ≤ b)

def jsub : JsNum → JsNum → JsNum
  | nan, _ => nan
  | _, nan => nan
  | inf, inf => nan
  | inf, _ => inf
  | ninf, ninf => nan
  | ninf, _ => ninf
  | fin _, inf => ninf
  | fin _, ninf => inf
  | fin a, fin b => fin (a - b)

def jmul : JsNum → JsNum → JsNum
  | nan, _ => nan
  | _, nan => nan
  | inf, inf => inf
  | inf, ninf => ninf
  | ninf, inf => ninf
  | ninf, ninf => inf
  | inf, fin b => if b = 0 then nan else if 0 < b then inf else ninf
  | fin a, inf => if a = 0 then nan else if 0 < a then inf else ninf
  | ninf, fin b => if b = 0 then nan else if 0 < b then ninf else inf
  | fin a, ninf => if a = 0 then nan else if 0 < a then ninf else inf
  | fin a, fin b => fin (a * b)

/-- JavaScript division (negative zero is not modelled). -/
def jdiv : JsNum → JsNum → JsNum
  | nan, _ => nan
  | _, nan => nan
  | inf, inf => nan
  | inf, ninf => nan
  | ninf, inf => nan
  | ninf, ninf => nan
  | inf, fin b => if 0 ≤ b then inf else ninf
  | ninf, fin b => if 0 ≤ b then ninf else inf
  | fin _, inf => fin 0
  | fin _, ninf => fin 0
  | fin a, fin b =>
    if b = 0 then (if a = 0 then nan else if 0 < a then inf else ninf) else fin (a / b)

def jabs : JsNum → JsNum
  | nan => nan
  | inf => inf
  | ninf => inf
  | fin a => fin |a|

/-- `Math.max(0, x)` as used by the diff computation. -/
def jmax0 (x : JsNum) : JsNum :=
  match x with
  | nan => nan
  | x => if jle (fin 0) x then x else fin 0

end JsNum

/-- A JavaScript value appearing as a metric or a `cut`: a number, a string, or
    undefined (an absent `cut` property). -/
inductive Value where
  | num (x : JsNum)
  | str (s : String)
  | undefined
deriving DecidableEq

/-- A standard entry. The optional `id`/`description` fields of the source
    interface are never read by the algorithm and are omitted. -/
structure Standard where
  label : String
  cut : Value
deriving DecidableEq

/- ------------------------------------------------------------------ -/
/- String helpers for the default time parser.                         -/
/- ------------------------------------------------------------------ -/

/-- Characters removed by JavaScript String.prototype.trim (ASCII subset;
    exotic Unicode space characters are not modelled). -/
def isJsSpace (c : Char) : Bool :=
  c = ' ' || c = '\t' || c = '\n' || c = '\r' || c = '\x0b' || c = '\x0c'

def jsTrim (s : String) : String :=
  ⟨((s.data.dropWhile isJsSpace).reverse.dropWhile isJsSpace).reverse⟩

def digitVal (c : Char) : ℕ := c.toNat - Char.toNat '0'

def natOfDigits (l : List Char) : ℕ :=
  l.foldl (fun acc c => 10 * acc + digitVal c) 0

/-- parseFloat("0." ++ digits): the exact fractional value of a digit string. -/
def fracOfDigits (l : List Char) : ℚ :=
  (natOfDigits l : ℚ) / (10 : ℚ) ^ l.length

def takeDigits (l : List Char) : List Char × List Char :=
  (l.takeWhile Char.isDigit, l.dropWhile Char.isDigit)

/-- A `[0-5]\d` group: two characters, the first in 0..5, the second a digit. -/
def matchTwoDigit05 : List Char → Option (ℕ × List Char)
  | c1 :: c2 :: rest =>
    if decide ('0' ≤ c1) && decide (c1 ≤ '5') && c2.isDigit then
      some (10 * digitVal c1 + digitVal c2, rest)
    else none
  | _ => none

/-- The optional trailing `(?:\.(\d+))?$` group: end of input yields fraction 0,
    a dot followed by one or more digits up to the end yields their value. -/
def matchFracEnd : List Char → Option ℚ
  | [] => some 0
  | '.' :: rest =>
    if !rest.isEmpty && rest.all Char.isDigit then some (fracOfDigits rest) else none
  | _ => none

/-- Model of the regex `^(\d+):([0-5]\d):([0-5]\d)(?:\.(\d+))?$` giving
    (hours, minutes, seconds, fraction). -/
def matchHMS (l : List Char) : Option (ℕ × ℕ × ℕ × ℚ) :=
  let (ds, rest) := takeDigits l
  if ds.isEmpty then none
  else
    match rest with
    | ':' :: r1 =>
      match matchTwoDigit05 r1 with
      | some (mi, r2) =>
        match r2 with
        | ':' :: r3 =>
          match matchTwoDigit05 r3 with
          | some (se, r4) =>
            match matchFracEnd r4 with
            | some fr => some (natOfDigits ds, mi, se, fr)
            | none => none
          | none => none
        | _ => none
      | none => none
    | _ => none

/-- Model of the regex `^(\d+):([0-5]\d)(?:\.(\d+))?$` giving
    (minutes, seconds, fraction). -/
def matchMS (l : List Char) : Option (ℕ × ℕ × ℚ) :=
  let (ds, rest) := takeDigits l
  if ds.isEmpty then none
  else
    match rest with
    | ':' :: r1 =>
      match matchTwoDigit05 r1 with
      | some (se, r2) =>
        match matchFracEnd r2 with
        | some fr => some (natOfDigits ds, se, fr)
        | none => none
      | none => none
    | _ => none

/-- Model of the regex `^(-?\d+)(?:\.(\d+))?$` followed by parseFloat on the
    matched string (exact rational value). -/
def matchDecimal (l : List Char) : Option ℚ :=
  let sl : ℚ × List Char :=
    match l with
    | '-' :: rest => (-1, rest)
    | _ => (1, l)
  let (ds, rest) := takeDigits sl.2
  if ds.isEmpty then none
  else
    match matchFracEnd rest with
    | some fr => some (sl.1 * ((natOfDigits ds : ℚ) + fr))
    | none => none

/-- An unsigned StrDecimalLiteral: digits with an optional dot and fraction, or
    a dot with digits, then an optional exponent part, consuming all input. -/
def parseUnsignedDec (l : List Char) : Option ℚ :=
  let core : Option (ℚ × List Char) :=
    match takeDigits l with
    | ([], rest) =>
      match rest with
      | '.' :: r2 =>
        let (fs, r3) := takeDigits r2
        if fs.isEmpty then none else some (fracOfDigits fs, r3)
      | _ => none
    | (ds, rest) =>
      match rest with
      | '.' :: r2 =>
        let (fs, r3) := takeDigits r2
        some ((natOfDigits ds : ℚ) + fracOfDigits fs, r3)
      | _ => some ((natOfDigits ds : ℚ), rest)
  match core with
  | none => none
  | some (q, rest) =>
    match rest with
    | [] => some q
    | e :: r2 =>
      if e = 'e' || e = 'E' then
        let sr : Bool × List Char :=
          match r2 with
          | '+' :: rr => (true, rr)
          | '-' :: rr => (false, rr)
          | _ => (true, r2)
        let (eds, r4) := takeDigits sr.2
        if eds.isEmpty || !r4.isEmpty then none
        else
          let k := natOfDigits eds
          some (if sr.1 then q * (10 : ℚ) ^ k else q / (10 : ℚ) ^ k)
      else none

def hexVal (c : Char) : Option ℕ :=
  if c.isDigit then some (digitVal c)
  else if decide ('a' ≤ c) && decide (c ≤ 'f') then some (c.toNat - Char.toNat 'a' + 10)
  else if decide ('A' ≤ c) && decide (c ≤ 'F') then some (c.toNat - Char.toNat 'A' + 10)
  else none

def natOfRadix (b : ℕ) (l : List Char) : Option ℕ :=
  l.foldl
    (fun acc c =>
      match acc, hexVal c with
      | some a, some v => if v < b then some (b * a + v) else none
      | _, _ => none)
    (some 0)

/-- An unsigned 0x / 0o / 0b radix literal. -/
def parseRadix (l : List Char) : Option ℚ :=
  match l with
  | '0' :: x :: rest =>
    let b : Option ℕ :=
      if x = 'x' || x = 'X' then some 16
      else if x = 'o' || x = 'O' then some 8
      else if x = 'b' || x = 'B' then some 2
      else none
    match b with
    | some b => if rest.isEmpty then none else (natOfRadix b rest).map (fun n => (n : ℚ))
    | none => none
  | _ => none

/-- Model of JavaScript Number(s) on an already-trimmed string, following the
    StringNumericLiteral grammar: empty is 0, Infinity forms, an optional sign
    with a decimal/exponent literal, or an unsigned radix literal. -/
def jsNumber (t : String) : JsNum :=
  let l := t.data
  if l.isEmpty then .fin 0
  else if t = "Infinity" || t = "+Infinity" then .inf
  else if t = "-Infinity" then .ninf
  else
    match parseRadix l with
    | some q => .fin q
    | none =>
      let sl : ℚ × List Char :=
        match l with
        | '+' :: rest => (1, rest)
        | '-' :: rest => (-1, rest)
        | _ => (1, l)
      match parseUnsignedDec sl.2 with
      | some q => .fin (sl.1 * q)
      | none => .nan

/-- Embedding of defaultTimeParser (computePerformance.ts lines 4-37): the three
    regex syntaxes tried in order, then the Number fallback, with non-finite
    fallback results replaced by NaN. -/
def defaultTimeParser (input : Value) : JsNum :=
  match input with
  | .num x => x
  | .undefined => .nan
  | .str s =>
    let t := jsTrim s
    let l := t.data
    match matchHMS l with
    | some (h, mi, se, fr) => .fin ((h : ℚ) * 3600 + (mi : ℚ) * 60 + (se : ℚ) + fr)
    | none =>
      match matchMS l with
      | some (mi, se, fr) => .fin ((mi : ℚ) * 60 + (se : ℚ) + fr)
      | none =>
        match matchDecimal l with
        | some q => .fin q
        | none =>
          let n := jsNumber t
          if n.isFinite then n else .nan

/-- Embedding of pad2 (lines 39-41): String(n).padStart(2, '0'). -/
def pad2 (n : ℕ) : String :=
  let s := toString n
  if s.length < 2 then "0" ++ s else s

/-- JavaScript remainder a % b for the nonnegative a and positive b used by the
    absolute formatter (truncation coincides with the floor there). -/
def jsMod (a b : ℚ) : ℚ := a - b * (⌊a / b⌋₊ : ℚ)

/- Digits used when a number is interpolated into a diagnostic string.  The
   shortest-round-trip double printing of JS is approximated by the exact
   decimal expansion capped at 20 fractional digits; only diagnostic text
   depends on it. -/
def decimalFracDigits : ℕ → ℚ → String
  | 0, _ => ""
  | fuel + 1, q =>
    if q = 0 then ""
    else
      let q10 := q * 10
      let d := ⌊q10⌋₊
      toString d ++ decimalFracDigits fuel (q10 - (d : ℚ))

def ratToJsString (q : ℚ) : String :=
  let sign := if q < 0 then "-" else ""
  let v := |q|
  let ip := ⌊v⌋₊
  let fp := v - (ip : ℚ)
  if fp = 0 then sign ++ toString ip
  else sign ++ toString ip ++ "." ++ decimalFracDigits 20 fp

/-- JavaScript String(x) for a number. -/
def jsNumToString : JsNum → String
  | .nan => "NaN"
  | .inf => "Infinity"
  | .ninf => "-Infinity"
  | .fin q => ratToJsString q

/-- Embedding of defaultFormatAbsolute (lines 44-61). -/
def defaultFormatAbsolute (value : JsNum) : String :=
  match value with
  | .nan => "NaN"
  | .inf => "Infinity"
  | .ninf => "-Infinity"
  | .fin q =>
    let sign := if q < 0 then "-" else ""
    let v := |q|
    let hours := ⌊v / 3600⌋₊
    let minutes := ⌊jsMod v 3600 / 60⌋₊
    let seconds := ⌊jsMod v 60⌋₊
    let hundredths := ⌊(v - (⌊v⌋₊ : ℚ)) * 100 + 1 / 2⌋₊
    if 0 < hours then
      sign ++ toString hours ++ ":" ++ pad2 minutes ++ ":" ++ pad2 seconds ++ "." ++ pad2 hundredths
    else if 0 < minutes then
      sign ++ toString minutes ++ ":" ++ pad2 seconds ++ "." ++ pad2 hundredths
    else
      sign ++ pad2 seconds ++ "." ++ pad2 hundredths

/-- toFixed(1) on a finite value, following the ECMA ToFixed algorithm: the
    sign is peeled off first and ties pick the larger candidate integer. -/
def toFixed1 (q : ℚ) : String :=
  let sign := if q < 0 then "-" else ""
  let n := ⌊|q| * 10 + 1 / 2⌋₊
  sign ++ toString (n / 10) ++ "." ++ toString (n % 10)

/-- Embedding of defaultFormatRelative (lines 64-67). -/
def defaultFormatRelative (percent : JsNum) : String :=
  match percent with
  | .nan => "NaN"
  | .inf => "Infinity"
  | .ninf => "-Infinity"
  | .fin q => toFixed1 q ++ "%"

inductive Direction where
  | higher
  | lower
deriving DecidableEq

/-- Embedding of isMatchNum (lines 69-73). -/
def isMatchNum (metric cutNum : JsNum) (direction : Direction) : Bool :=
  if cutNum.isNaN then false
  else
    match direction with
    | .higher => JsNum.jle cutNum metric
    | .lower => JsNum.jle metric cutNum

/- ------------------------------------------------------------------ -/
/- The computePerformance embedding.                                   -/
/- ------------------------------------------------------------------ -/

/-- A caller-supplied parser; an `error` result models a raised exception. -/
def ParserFn : Type := Value → Except String JsNum

structure PerformanceOptions where
  direction : Option String := none
  levels : Option (List String) := none
  optParser : Option ParserFn := none
  formatAbsolute : Option (JsNum → String) := none
  formatRelative : Option (JsNum → String) := none
  validationMode : Option String := none

/-- An entry of the `numericStandards` working list. -/
structure NumStd where
  idx : ℕ
  std : Standard
  cutNum : JsNum
deriving DecidableEq

structure DiffPair where
  absolute : JsNum
  relative : JsNum
deriving DecidableEq

structure FmtPair where
  absolute : String
  relative : String
deriving DecidableEq

structure NextCutObj where
  label : String
  cut : String
deriving DecidableEq

structure Validation where
  valid : Bool
  errors : List String
deriving DecidableEq

structure PerformanceResult where
  label : String
  index : Int
  standard : Option Standard
  nextStandard : Option Standard
  nextCut : Option NextCutObj
  diffToNext : Option DiffPair
  diffToNextFormatted : Option FmtPair
  validation : Validation
deriving DecidableEq

/- Diagnostic strings produced by computePerformance. -/

def stdEmptyMsg : String := "`standards` must be a non-empty array"
def autoNonMonoMsg : String :=
  "Auto-direction inference failed: levels cuts are not monotonic; defaulting to \"lower\""
def autoMissingMsg : String :=
  "Auto-direction inference failed: missing/invalid cuts for some levels; defaulting to \"lower\""
def autoNeedLevelsMsg : String :=
  "Auto-direction inference requires `levels`; defaulting to \"lower\""
def dupMsg (label : String) : String :=
  "Duplicate standard label \x27" ++ label ++ "\x27 in standards"
def missingLevelMsg (lvl : String) : String :=
  "Level \x27" ++ lvl ++ "\x27 is declared in options.levels but missing from standards"
def unparsePairMsg (lowL highL : String) : String :=
  "Unable to parse cuts for levels \x27" ++ lowL ++ "\x27 or \x27" ++ highL ++ "\x27"
def orderingMsg (lowL : String) (lowCut : JsNum) (highL : String) (highCut : JsNum)
    (d : Direction) : String :=
  "Ordering violation: level \x27" ++ lowL ++ "\x27 (cut=" ++ jsNumToString lowCut ++
    ") should be " ++ (match d with | .lower => ">" | .higher => "<") ++ " \x27" ++ highL ++
    "\x27 (cut=" ++ jsNumToString highCut ++ ") for direction \x27" ++
    (match d with | .lower => "lower" | .higher => "higher") ++ "\x27"
def metricErrMsg : String := "Unable to parse metric into a numeric value"
def cutErrMsg (label : String) : String :=
  "Unable to parse cut value for standard \x27" ++ label ++ "\x27"
def nextCutErrMsg : String := "Unable to parse cut value for next standard"
def cantDiffMsg : String := "Unable to compute diff: next standard cut could not be parsed"

/-- `typeof x === \x27number\x27 ? x : parser(x)`, the cut/metric parsing pattern
    used throughout computePerformance. -/
def parseVal (p : ParserFn) (v : Value) : Except String JsNum :=
  match v with
  | .num x => .ok x
  | v => p v

/-- The `labelToStd` Map lookups: the map is built by iterating the standards in
    order with Map.set, so a later standard with a duplicated label overwrites
    an earlier one (last-seen wins). -/
def mapGet (standards : List Standard) (label : String) : Option Standard :=
  standards.foldl (fun acc s => if s.label == label then some s else acc) none

/-- The cut-collection loop of auto-direction inference (lines 106-120): `none`
    models `canInfer = false` (a missing label, an undefined cut, or a cut that
    parses to NaN breaks the loop). -/
def inferCuts (p : ParserFn) (standards : List Standard) :
    List String → Except String (Option (List JsNum))
  | [] => .ok (some [])
  | lvl :: rest =>
    match mapGet standards lvl with
    | none => .ok none
    | some s =>
      if s.cut = Value.undefined then .ok none
      else
        match parseVal p s.cut with
        | .error e => .error e
        | .ok parsed =>
          if parsed.isNaN then .ok none
          else
            match inferCuts p standards rest with
            | .error e => .error e
            | .ok none => .ok none
            | .ok (some cuts) => .ok (some (parsed :: cuts))

/-- The `increasing` flag of lines 122-127: every adjacent pair strictly rises. -/
def chainInc : List JsNum → Bool
  | a :: b :: rest => JsNum.jlt a b && chainInc (b :: rest)
  | _ => true

/-- The `decreasing` flag of lines 122-127: every adjacent pair strictly falls. -/
def chainDec : List JsNum → Bool
  | a :: b :: rest => JsNum.jlt b a && chainDec (b :: rest)
  | _ => true

/-- Embedding of the direction-resolution phase (lines 98-142), returning the
    resolved direction together with the diagnostics it pushed. -/
def resolveDirection (p : ParserFn) (standards : List Standard) (o : PerformanceOptions) :
    Except String (Direction × List String) :=
  if o.direction = some "higher" then .ok (.higher, [])
  else if o.direction = some "lower" then .ok (.lower, [])
  else if o.direction = some "auto" then
    match o.levels with
    | some lvls =>
      match inferCuts p standards lvls with
      | .error e => .error e
      | .ok (some cuts) =>
        if chainInc cuts && !chainDec cuts then .ok (.higher, [])
        else if chainDec cuts && !chainInc cuts then .ok (.lower, [])
        else .ok (.lower, [autoNonMonoMsg])
      | .ok none => .ok (.lower, [autoMissingMsg])
    | none => .ok (.lower, [autoNeedLevelsMsg])
  else .ok (.lower, [])

/-- The duplicate-label pass of the levels-validation block (lines 147-153):
    iterate the standards, flagging any label already placed in the map. -/
def dupErrors : List Standard → List String → List String
  | [], _ => []
  | s :: rest, seen =>
    (if s.label ∈ seen then [dupMsg s.label] else []) ++ dupErrors rest (s.label :: seen)

/-- The missing-level pass (lines 154-158). -/
def missingErrors (standards : List Standard) (levels : List String) : List String :=
  levels.filterMap (fun lvl =>
    if standards.any (fun s => s.label == lvl) then none else some (missingLevelMsg lvl))

/-- One ordering comparison of the pairwise loop (lines 160-183). -/
def pairCheck (p : ParserFn) (standards : List Standard) (d : Direction)
    (lowL highL : String) : Except String (List String) :=
  match mapGet standards lowL, mapGet standards highL with
  | some lowStd, some highStd =>
    match parseVal p lowStd.cut with
    | .error e => .error e
    | .ok lowCut =>
      match parseVal p highStd.cut with
      | .error e => .error e
      | .ok highCut =>
        if lowCut.isNaN || highCut.isNaN then .ok [unparsePairMsg lowL highL]
        else
          match d with
          | .lower =>
            if !(JsNum.jlt highCut lowCut) then
              .ok [orderingMsg lowL lowCut highL highCut .lower]
            else .ok []
          | .higher =>
            if !(JsNum.jlt lowCut highCut) then
              .ok [orderingMsg lowL lowCut highL highCut .higher]
            else .ok []
  | _, _ => .ok []

/-- All index pairs i < j of the levels sequence, in loop order. -/
def levelPairs : List String → List (String × String)
  | [] => []
  | x :: rest => rest.map (fun y => (x, y)) ++ levelPairs rest

def pairChecks (p : ParserFn) (standards : List Standard) (d : Direction) :
    List (String × String) → Except String (List String)
  | [] => .ok []
  | (a, b) :: rest =>
    match pairCheck p standards d a b with
    | .error e => .error e
    | .ok es =>
      match pairChecks p standards d rest with
      | .error e => .error e
      | .ok es2 => .ok (es ++ es2)

/-- Embedding of the levels-validation block (lines 144-184): duplicate labels,
    missing levels, then the pairwise ordering check, in source order. -/
def validateLevels (p : ParserFn) (standards : List Standard) (o : PerformanceOptions)
    (d : Direction) : Except String (List String) :=
  match o.levels with
  | none => .ok []
  | some lvls =>
    match pairChecks p standards d (levelPairs lvls) with
    | .error e => .error e
    | .ok ord => .ok (dupErrors standards [] ++ missingErrors standards lvls ++ ord)

/-- Embedding of the numericStandards construction (lines 195-204). -/
def buildNumeric (p : ParserFn) : ℕ → List Standard → Except String (List NumStd × List String)
  | _, [] => .ok ([], [])
  | i, s :: rest =>
    match parseVal p s.cut with
    | .error e => .error e
    | .ok c =>
      match buildNumeric p (i + 1) rest with
      | .error e => .error e
      | .ok (ns, es) => .ok (⟨i, s, c⟩ :: ns, (if c.isNaN then [cutErrMsg s.label] else []) ++ es)

def insertLe {α : Type} (le : α → α → Bool) (x : α) : List α → List α
  | [] => [x]
  | y :: ys => if le y x then y :: insertLe le x ys else x :: y :: ys

/-- Stable sort modelling Array.prototype.sort with a numeric comparator: an
    element y stays before x exactly when the comparator puts y ≤ x (ES2019
    sort is stable, and a NaN comparator value counts as 0). -/
def sortByL {α : Type} (le : α → α → Bool) (l : List α) : List α :=
  l.foldl (fun acc x => insertLe le x acc) []

def cutLeAsc (a b : NumStd) : Bool := JsNum.jle a.cutNum b.cutNum

def cutLeDesc (a b : NumStd) : Bool := JsNum.jle b.cutNum a.cutNum

/-- The next-standard candidates under direction \x27higher\x27: finite cuts
    strictly above the reference, sorted ascending (lines 221-225 / 280-282). -/
def nextCandidatesHigher (ns : List NumStd) (ref : JsNum) : List NumStd :=
  sortByL cutLeAsc (ns.filter (fun e => e.cutNum.isFinite && JsNum.jlt ref e.cutNum))

/-- The next-standard candidates under direction \x27lower\x27: finite cuts
    strictly below the reference, sorted descending (lines 226-232 / 283-286). -/
def nextCandidatesLower (ns : List NumStd) (ref : JsNum) : List NumStd :=
  sortByL cutLeDesc (ns.filter (fun e => e.cutNum.isFinite && JsNum.jlt e.cutNum ref))

def nextFrom (ns : List NumStd) (ref : JsNum) (d : Direction) : Option Standard :=
  match d with
  | .higher => (nextCandidatesHigher ns ref).head?.map (fun e => e.std)
  | .lower => (nextCandidatesLower ns ref).head?.map (fun e => e.std)

/-- `numericStandards.find((e) => e.std === s)` fetched for its cutNum; NaN when
    absent, mirroring lines 238-239 / 291-292. -/
def lookupCutNum (ns : List NumStd) (s : Standard) : JsNum :=
  match ns.find? (fun e => e.std == s) with
  | some e => e.cutNum
  | none => .nan

/-- The diff formula shared by the two textually identical source blocks
    (lines 241-251 and 294-304). -/
def computeDiffPair (d : Direction) (metricNum nextCutNum : JsNum) : DiffPair :=
  let abs := match d with
    | .higher => JsNum.jmax0 (JsNum.jsub nextCutNum metricNum)
    | .lower => JsNum.jmax0 (JsNum.jsub metricNum nextCutNum)
  let denom := if JsNum.jlt (.fin 0) (JsNum.jabs nextCutNum) then JsNum.jabs nextCutNum
    else .fin 1
  ⟨abs, JsNum.jmul (JsNum.jdiv abs denom) (.fin 100)⟩

/-- JavaScript String(x) for the raw cut representations. -/
def valueDisplayString : Value → String
  | .num x => jsNumToString x
  | .str s => s
  | .undefined => "undefined"

/-- Embedding of buildNextCutObject (lines 313-320); the parser call can raise. -/
def buildNextCutObject (p : ParserFn) (fmtA : JsNum → String) :
    Option Standard → Except String (Option NextCutObj)
  | none => .ok none
  | some s =>
    match parseVal p s.cut with
    | .error e => .error e
    | .ok parsed =>
      let cutStr := match s.cut with
        | .str str => str
        | raw => if parsed.isFinite then fmtA parsed else valueDisplayString raw
      .ok (some ⟨s.label, cutStr⟩)

/-- The diff/formatted/push-error step of the no-match branch (lines 235-256). -/
def unmatchedDiffStep (fmtA fmtR : JsNum → String) (ns : List NumStd) (metricNum : JsNum)
    (d : Direction) : Option Standard → Option DiffPair × Option FmtPair × List String
  | some nb =>
    if metricNum.isFinite then
      let nextCutNum := lookupCutNum ns nb
      if nextCutNum.isFinite then
        let dp := computeDiffPair d metricNum nextCutNum
        (some dp, some ⟨fmtA dp.absolute, fmtR dp.relative⟩, [])
      else (none, none, [nextCutErrMsg])
    else (none, none, [])
  | none => (none, none, [])

/-- Embedding of the no-match branch (lines 214-267). -/
def unmatchedResult (p : ParserFn) (fmtA fmtR : JsNum → String) (ns : List NumStd)
    (metricNum : JsNum) (d : Direction) (errs : List String) :
    Except String PerformanceResult :=
  let nextBest : Option Standard :=
    if metricNum.isFinite then nextFrom ns metricNum d else none
  let step := unmatchedDiffStep fmtA fmtR ns metricNum d nextBest
  match buildNextCutObject p fmtA nextBest with
  | .error e => .error e
  | .ok nc =>
    let allErrs := errs ++ step.2.2
    .ok { label := "unknown", index := -1, standard := none, nextStandard := nextBest,
          nextCut := nc, diffToNext := step.1, diffToNextFormatted := step.2.1,
          validation := ⟨allErrs.isEmpty, allErrs⟩ }

/-- The diff/push-error step of the matched branch (lines 288-308). -/
def matchedDiffStep (ns : List NumStd) (metricNum : JsNum) (d : Direction) :
    Option Standard → Option DiffPair × List String
  | some nx =>
    let nextCutNum := lookupCutNum ns nx
    if nextCutNum.isFinite && metricNum.isFinite then
      (some (computeDiffPair d metricNum nextCutNum), [])
    else (none, [cantDiffMsg])
  | none => (none, [])

/-- Embedding of the matched branch (lines 269-331). -/
def matchedResult (p : ParserFn) (fmtA fmtR : JsNum → String) (ns matchList : List NumStd)
    (metricNum : JsNum) (d : Direction) (errs : List String) :
    Except String PerformanceResult :=
  let sorted := match d with
    | .higher => sortByL cutLeDesc matchList
    | .lower => sortByL cutLeAsc matchList
  let bestMatch := sorted.headD ⟨0, ⟨"", .undefined⟩, .nan⟩
  let next := nextFrom ns bestMatch.cutNum d
  let step := matchedDiffStep ns metricNum d next
  let formatted := step.1.map (fun dp => (⟨fmtA dp.absolute, fmtR dp.relative⟩ : FmtPair))
  match buildNextCutObject p fmtA next with
  | .error e => .error e
  | .ok nc =>
    let allErrs := errs ++ step.2
    .ok { label := bestMatch.std.label, index := (bestMatch.idx : Int),
          standard := some bestMatch.std, nextStandard := next, nextCut := nc,
          diffToNext := step.1, diffToNextFormatted := formatted,
          validation := ⟨allErrs.isEmpty, allErrs⟩ }

def defaultParserFn : ParserFn := fun v => .ok (defaultTimeParser v)

def parserOf (o : PerformanceOptions) : ParserFn := o.optParser.getD defaultParserFn

def fmtAOf (o : PerformanceOptions) : JsNum → String :=
  o.formatAbsolute.getD defaultFormatAbsolute

def fmtROf (o : PerformanceOptions) : JsNum → String :=
  o.formatRelative.getD defaultFormatRelative

def joinSemi (l : List String) : String := String.intercalate "; " l

/-- The early return for an empty standards collection (lines 82-92). -/
def emptyStandardsResult : PerformanceResult :=
  { label := "unknown", index := -1, standard := none, nextStandard := none, nextCut := none,
    diffToNext := none, diffToNextFormatted := none, validation := ⟨false, [stdEmptyMsg]⟩ }

/-- Embedding of computePerformance (lines 75-332). An `.error` value models an
    exception escaping the call: the validationMode \x27throw\x27 abort, or an
    uncaught exception raised by a caller-supplied parser. -/
def computePerformance (metric : Value) (standards : List Standard)
    (o : PerformanceOptions) : Except String PerformanceResult :=
  if standards.isEmpty then .ok emptyStandardsResult
  else
    match resolveDirection (parserOf o) standards o with
    | .error e => .error e
    | .ok (d, errsD) =>
      match validateLevels (parserOf o) standards o d with
      | .error e => .error e
      | .ok errsV =>
        if o.validationMode = some "throw" && !(errsD ++ errsV).isEmpty then
          .error ("Validation errors: " ++ joinSemi (errsD ++ errsV))
        else
          match parseVal (parserOf o) metric with
          | .error e => .error e
          | .ok metricNum =>
            match buildNumeric (parserOf o) 0 standards with
            | .error e => .error e
            | .ok (ns, errsC) =>
              if (ns.filter (fun e =>
                  !e.cutNum.isNaN && !metricNum.isNaN && isMatchNum metricNum e.cutNum d)).isEmpty then
                unmatchedResult (parserOf o) (fmtAOf o) (fmtROf o) ns metricNum d
                  (((errsD ++ errsV) ++ (if metricNum.isNaN then [metricErrMsg] else [])) ++ errsC)
              else
                matchedResult (parserOf o) (fmtAOf o) (fmtROf o) ns
                  (ns.filter (fun e =>
                    !e.cutNum.isNaN && !metricNum.isNaN && isMatchNum metricNum e.cutNum d))
                  metricNum d
                  (((errsD ++ errsV) ++ (if metricNum.isNaN then [metricErrMsg] else [])) ++ errsC)

/- ------------------------------------------------------------------ -/
/- The swim-standards transformer.                                     -/
/- ------------------------------------------------------------------ -/

/-- Property read mapping[label] on the record model: the later entry of a
    duplicated key wins, a missing key reads as undefined. -/
def recordGet (mapping : List (String × String)) (label : String) : Value :=
  match mapping.reverse.find? (fun kv => kv.1 == label) with
  | some kv => .str kv.2
  | none => .undefined

/-- Object.keys order on the record model: insertion order, first occurrence of
    a duplicated key. -/
def recordKeys (mapping : List (String × String)) : List String :=
  (mapping.map Prod.fst).eraseDups

/-- Embedding of transformSwimmingStandards (the swim transformer collaborator,
    lines 9-22 of its source file). -/
def transformSwimmingStandards (mapping : List (String × String))
    (levelsOrder : Option (List String)) : List Standard :=
  match levelsOrder with
  | some lvls =>
    if !lvls.isEmpty then lvls.map (fun label => ⟨label, recordGet mapping label⟩)
    else (recordKeys mapping).map (fun label => ⟨label, recordGet mapping label⟩)
  | none => (recordKeys mapping).map (fun label => ⟨label, recordGet mapping label⟩)

/- ------------------------------------------------------------------ -/
/- Shared lemmas about the embedding.                                  -/
/- ------------------------------------------------------------------ -/

theorem mem_insertLe {α : Type} (le : α → α → Bool) (x a : α) :
    ∀ l : List α, a ∈ insertLe le x l ↔ a = x ∨ a ∈ l
  | [] => by simp [insertLe]
  | y :: ys => by
    simp only [insertLe]
    split <;> simp [List.mem_cons, mem_insertLe le x a ys] <;> tauto

theorem mem_sortByL_aux {α : Type} (le : α → α → Bool) (a : α) :
    ∀ (l acc : List α), a ∈ l.foldl (fun acc x => insertLe le x acc) acc ↔ a ∈ acc ∨ a ∈ l
  | [], acc => by simp
  | x :: xs, acc => by
    simp only [List.foldl_cons, mem_sortByL_aux le a xs, mem_insertLe, List.mem_cons]
    tauto

theorem mem_sortByL {α : Type} (le : α → α → Bool) (a : α) (l : List α) :
    a ∈ sortByL le l ↔ a ∈ l := by
  simp [sortByL, mem_sortByL_aux]

theorem length_insertLe {α : Type} (le : α → α → Bool) (x : α) :
    ∀ l : List α, (insertLe le x l).length = l.length + 1
  | [] => rfl
  | y :: ys => by
    simp only [insertLe]
    split
    · simp [length_insertLe le x ys]
    · simp

theorem length_sortByL_aux {α : Type} (le : α → α → Bool) :
    ∀ (l acc : List α),
      (l.foldl (fun acc x => insertLe le x acc) acc).length = acc.length + l.length
  | [], acc => by simp
  | x :: xs, acc => by
    simp only [List.foldl_cons, length_sortByL_aux le xs, length_insertLe, List.length_cons]
    omega

theorem length_sortByL {α : Type} (le : α → α → Bool) (l : List α) :
    (sortByL le l).length = l.length := by
  simp [sortByL, length_sortByL_aux]

theorem headD_mem {α : Type} (l : List α) (d : α) (h : l ≠ []) : l.headD d ∈ l := by
  cases l with
  | nil => exact absurd rfl h
  | cons x xs => simp

theorem buildNumeric_mem_parse (p : ParserFn) :
    ∀ (st : List Standard) (i : ℕ) (ns : List NumStd) (es : List String),
      buildNumeric p i st = .ok (ns, es) → ∀ e ∈ ns, parseVal p e.std.cut = .ok e.cutNum
  | [], _, ns, es => by
    intro h e he
    simp only [buildNumeric, Except.ok.injEq, Prod.mk.injEq] at h
    rw [← h.1] at he
    cases he
  | s :: rest, i, ns, es => by
    intro h e he
    simp only [buildNumeric] at h
    cases hp : parseVal p s.cut with
    | error err => rw [hp] at h; cases h
    | ok c =>
      rw [hp] at h
      cases hr : buildNumeric p (i + 1) rest with
      | error err => rw [hr] at h; cases h
      | ok pr =>
        obtain ⟨ns', es'⟩ := pr
        rw [hr] at h
        simp only [Except.ok.injEq, Prod.mk.injEq] at h
        rw [← h.1] at he
        rcases List.mem_cons.mp he with h1 | h2
        · rw [h1]; exact hp
        · exact buildNumeric_mem_parse p rest (i + 1) ns' es' hr e h2

theorem nextFrom_spec (ns : List NumStd) (ref : JsNum) (d : Direction) (s : Standard)
    (h : nextFrom ns ref d = some s) : ∃ e ∈ ns, e.std = s ∧ e.cutNum.isFinite = true := by
  cases d with
  | higher =>
    simp only [nextFrom, Option.map_eq_some'] at h
    obtain ⟨e, he, hes⟩ := h
    have hm := List.mem_of_mem_head? he
    rw [nextCandidatesHigher, mem_sortByL, List.mem_filter] at hm
    have hm2 := hm.2
    simp only [Bool.and_eq_true] at hm2
    exact ⟨e, hm.1, hes, hm2.1⟩
  | lower =>
    simp only [nextFrom, Option.map_eq_some'] at h
    obtain ⟨e, he, hes⟩ := h
    have hm := List.mem_of_mem_head? he
    rw [nextCandidatesLower, mem_sortByL, List.mem_filter] at hm
    have hm2 := hm.2
    simp only [Bool.and_eq_true] at hm2
    exact ⟨e, hm.1, hes, hm2.1⟩

theorem unmatchedResult_fields (p : ParserFn) (fA fR : JsNum → String) (ns : List NumStd)
    (mq : JsNum) (d : Direction) (errs : List String) (r : PerformanceResult)
    (h : unmatchedResult p fA fR ns mq d errs = .ok r) :
    r.label = "unknown" ∧ r.index = -1 ∧ r.standard = none ∧
    r.nextStandard = (if mq.isFinite then nextFrom ns mq d else none) ∧
    r.diffToNext =
      (unmatchedDiffStep fA fR ns mq d (if mq.isFinite then nextFrom ns mq d else none)).1 ∧
    r.validation.errors =
      errs ++ (unmatchedDiffStep fA fR ns mq d (if mq.isFinite then nextFrom ns mq d else none)).2.2 := by
  simp only [unmatchedResult] at h
  cases hb : buildNextCutObject p fA (if mq.isFinite then nextFrom ns mq d else none) with
  | error e => rw [hb] at h; cases h
  | ok nc =>
    rw [hb] at h
    simp only [Except.ok.injEq] at h
    rw [← h]
    exact ⟨rfl, rfl, rfl, rfl, rfl, rfl⟩

theorem matchedResult_fields (p : ParserFn) (fA fR : JsNum → String) (ns ml : List NumStd)
    (mq : JsNum) (d : Direction) (errs : List String) (r : PerformanceResult)
    (h : matchedResult p fA fR ns ml mq d errs = .ok r) :
    ∃ best,
      best = (match d with
        | Direction.higher => sortByL cutLeDesc ml
        | Direction.lower => sortByL cutLeAsc ml).headD ⟨0, ⟨"", .undefined⟩, .nan⟩ ∧
      r.label = best.std.label ∧ r.index = (best.idx : Int) ∧ r.standard = some best.std ∧
      r.nextStandard = nextFrom ns best.cutNum d ∧
      r.diffToNext = (matchedDiffStep ns mq d (nextFrom ns best.cutNum d)).1 ∧
      r.validation.errors = errs ++ (matchedDiffStep ns mq d (nextFrom ns best.cutNum d)).2 := by
  simp only [matchedResult] at h
  refine ⟨_, rfl, ?_⟩
  cases hb : buildNextCutObject p fA
      (nextFrom ns ((match d with
        | Direction.higher => sortByL cutLeDesc ml
        | Direction.lower => sortByL cutLeAsc ml).headD ⟨0, ⟨"", .undefined⟩, .nan⟩).cutNum d) with
  | error e => rw [hb] at h; cases h
  | ok nc =>
    rw [hb] at h
    simp only [Except.ok.injEq] at h
    rw [← h]
    exact ⟨rfl, rfl, rfl, rfl, rfl, rfl⟩

theorem computePerformance_ok_cases (metric : Value) (standards : List Standard)
    (o : PerformanceOptions) (r : PerformanceResult)
    (h : computePerformance metric standards o = .ok r) :
    (standards.isEmpty = true ∧ r = emptyStandardsResult) ∨
    (∃ d errsD errsV mq ns errsC,
      standards.isEmpty = false ∧
      resolveDirection (parserOf o) standards o = .ok (d, errsD) ∧
      validateLevels (parserOf o) standards o d = .ok errsV ∧
      parseVal (parserOf o) metric = .ok mq ∧
      buildNumeric (parserOf o) 0 standards = .ok (ns, errsC) ∧
      ((ns.filter (fun e =>
            !e.cutNum.isNaN && !mq.isNaN && isMatchNum mq e.cutNum d)).isEmpty = true ∧
        unmatchedResult (parserOf o) (fmtAOf o) (fmtROf o) ns mq d
          (((errsD ++ errsV) ++ (if mq.isNaN then [metricErrMsg] else [])) ++ errsC) = .ok r ∨
       (ns.filter (fun e =>
            !e.cutNum.isNaN && !mq.isNaN && isMatchNum mq e.cutNum d)).isEmpty = false ∧
        matchedResult (parserOf o) (fmtAOf o) (fmtROf o) ns
          (ns.filter (fun e => !e.cutNum.isNaN && !mq.isNaN && isMatchNum mq e.cutNum d)) mq d
          (((errsD ++ errsV) ++ (if mq.isNaN then [metricErrMsg] else [])) ++ errsC) = .ok r)) := by
  by_cases hemp : standards.isEmpty
  · left
    refine ⟨hemp, ?_⟩
    rw [computePerformance, if_pos hemp] at h
    exact (Except.ok.injEq _ _).mp h.symm |>.symm ▸ rfl
  · right
    rw [computePerformance, if_neg hemp] at h
    cases hrd : resolveDirection (parserOf o) standards o with
    | error e => rw [hrd] at h; cases h
    | ok pr =>
      obtain ⟨d, errsD⟩ := pr
      rw [hrd] at h
      simp only [] at h
      cases hvl : validateLevels (parserOf o) standards o d with
      | error e => rw [hvl] at h; cases h
      | ok errsV =>
        rw [hvl] at h
        simp only [] at h
        by_cases hth : (decide (o.validationMode = some "throw") && !(errsD ++ errsV).isEmpty) = true
        · rw [if_pos hth] at h; cases h
        · rw [if_neg hth] at h
          cases hmq : parseVal (parserOf o) metric with
          | error e => rw [hmq] at h; cases h
          | ok mq =>
            rw [hmq] at h
            simp only [] at h
            cases hbn : buildNumeric (parserOf o) 0 standards with
            | error e => rw [hbn] at h; cases h
            | ok pr2 =>
              obtain ⟨ns, errsC⟩ := pr2
              rw [hbn] at h
              simp only [] at h
              refine ⟨d, errsD, errsV, mq, ns, errsC,
                (by simpa using hemp), rfl, hvl, rfl, rfl, ?_⟩
              by_cases hml : (ns.filter (fun e =>
                  !e.cutNum.isNaN && !mq.isNaN && isMatchNum mq e.cutNum d)).isEmpty
              · left
                rw [if_pos hml] at h
                exact ⟨hml, h⟩
              · right
                rw [if_neg hml] at h
                exact ⟨by simpa using hml, h⟩

theorem lookupCutNum_eq (p : ParserFn) (ns : List NumStd) (s : Standard) (cq : JsNum)
    (hall : ∀ e ∈ ns, parseVal p e.std.cut = .ok e.cutNum)
    (hex : ∃ e ∈ ns, e.std = s)
    (hcq : parseVal p s.cut = .ok cq) :
    lookupCutNum ns s = cq := by
  obtain ⟨e0, he0, he0s⟩ := hex
  rw [lookupCutNum]
  cases hf : ns.find? (fun e => e.std == s) with
  | none =>
    have : (ns.find? (fun e => e.std == s)).isSome :=
      List.find?_isSome.mpr ⟨e0, he0, by simp [he0s]⟩
    rw [hf] at this
    cases this
  | some e =>
    have hmem := List.mem_of_find?_eq_some hf
    have hes : e.std = s := by simpa using List.find?_some hf
    have hpe := hall e hmem
    rw [hes, hcq] at hpe
    exact ((Except.ok.injEq _ _).mp hpe).symm

theorem jmax0_fin (a : ℚ) : JsNum.jmax0 (.fin a) = .fin (max 0 a) := by
  by_cases h : (0:ℚ) ≤ a
  · simp [JsNum.jmax0, JsNum.jle, h, max_eq_right h]
  · simp [JsNum.jmax0, JsNum.jle, h, max_eq_left (le_of_not_le h)]

theorem computeDiffPair_fin (d : Direction) (qm qc : ℚ) :
    computeDiffPair d (.fin qm) (.fin qc) =
      ⟨.fin (max 0 (match d with | .higher => qc - qm | .lower => qm - qc)),
       .fin (max 0 (match d with | .higher => qc - qm | .lower => qm - qc) /
         (if qc = 0 then 1 else |qc|) * 100)⟩ := by
  have hsub : JsNum.jsub (.fin qc) (.fin qm) = .fin (qc - qm) := rfl
  have hsub2 : JsNum.jsub (.fin qm) (.fin qc) = .fin (qm - qc) := rfl
  by_cases hqc : qc = 0
  · subst hqc
    cases d <;>
      simp [computeDiffPair, hsub, hsub2, jmax0_fin, JsNum.jabs, JsNum.jlt, JsNum.jdiv,
        JsNum.jmul, one_ne_zero]
  · have habs : (0:ℚ) < |qc| := abs_pos.mpr hqc
    have habs' : |qc| ≠ 0 := ne_of_gt habs
    cases d <;>
      simp [computeDiffPair, hsub, hsub2, jmax0_fin, JsNum.jabs, JsNum.jlt, JsNum.jdiv,
        JsNum.jmul, habs, habs', hqc]

theorem jlt_asymm (a b : JsNum) (h : JsNum.jlt a b = true) : JsNum.jlt b a = false := by
  cases a <;> cases b <;> simp_all [JsNum.jlt] <;> exact le_of_lt h

theorem chainInc_iff :
    ∀ l : List JsNum, chainInc l = true ↔ List.Chain' (fun a b => JsNum.jlt a b = true) l
  | [] => by simp [chainInc]
  | [a] => by simp [chainInc]
  | a :: b :: rest => by
    rw [chainInc, Bool.and_eq_true, chainInc_iff (b :: rest), List.chain'_cons]

theorem chainDec_iff :
    ∀ l : List JsNum, chainDec l = true ↔ List.Chain' (fun a b => JsNum.jlt b a = true) l
  | [] => by simp [chainDec]
  | [a] => by simp [chainDec]
  | a :: b :: rest => by
    rw [chainDec, Bool.and_eq_true, chainDec_iff (b :: rest), List.chain'_cons]

theorem inferCuts_length (p : ParserFn) (st : List Standard) :
    ∀ (lvls : List String) (cuts : List JsNum),
      inferCuts p st lvls = .ok (some cuts) → cuts.length = lvls.length
  | [], cuts => by
    intro h
    simp only [inferCuts, Except.ok.injEq, Option.some.injEq] at h
    rw [← h]
    rfl
  | lvl :: rest, cuts => by
    intro h
    simp only [inferCuts] at h
    cases hm : mapGet st lvl with
    | none => rw [hm] at h; simp at h
    | some sstd =>
      rw [hm] at h
      simp only [] at h
      by_cases hu : sstd.cut = Value.undefined
      · rw [if_pos hu] at h; simp at h
      · rw [if_neg hu] at h
        cases hp : parseVal p sstd.cut with
        | error e => rw [hp] at h; cases h
        | ok parsed =>
          rw [hp] at h
          simp only [] at h
          by_cases hn : parsed.isNaN
          · rw [if_pos hn] at h; simp at h
          · rw [if_neg hn] at h
            cases hrec : inferCuts p st rest with
            | error e => rw [hrec] at h; cases h
            | ok orest =>
              rw [hrec] at h
              cases orest with
              | none => simp at h
              | some cuts' =>
                simp only [Except.ok.injEq, Option.some.injEq] at h
                rw [← h]
                simp [inferCuts_length p st rest cuts' hrec]

/- ------------------------------------------------------------------ -/
/- Claim theorems.                                                     -/
/- ------------------------------------------------------------------ -/

/-- Claim C1 (code bug, failing input): a caller-supplied parser that raises on
    the metric propagates its exception out of computePerformance unchanged —
    there is no try/catch at any parser call site — instead of being caught and
    converted into a "Parser error: <message>" diagnostic as the claim (and the
    repository\x27s own test suite) requires. -/
theorem c1_parser_exception_propagates :
    computePerformance (.str "12") [⟨"A", .str "10"⟩]
      { optParser := some (fun _ => .error "boom parser") } = .error "boom parser" ∧
    "boom parser" ≠ "Parser error: boom parser" :=
  ⟨by with_unfolding_all rfl, by decide⟩

/-- Claim C2 (code bug, failing input): with validationMode \x27throw\x27 and a
    standard whose cut is unparsable, computePerformance returns an ordinary
    result carrying the unparsable-cut diagnostic instead of raising: the throw
    checkpoint (line 187) runs before metric and cut parsing, so those
    diagnostics can never trigger it, contradicting the claim and the
    repository\x27s own test. -/
theorem c2_throw_mode_ignores_parse_diagnostics :
    computePerformance (.num (.fin 12)) [⟨"A", .str "not-a-number"⟩]
      { validationMode := some "throw" } =
    .ok { label := "unknown", index := -1, standard := none, nextStandard := none,
          nextCut := none, diffToNext := none, diffToNextFormatted := none,
          validation := ⟨false, [cutErrMsg "A"]⟩ } := by
  with_unfolding_all rfl

/-- Claim C3 (confirmed): Scenario 3 — the metric \x272:30.00\x27 parses to 150
    and, against the Fast/Moderate/Slow time standards under the defaults, the
    result is label \x27Slow\x27, nextStandard \x27Moderate\x27, absolute diff 90
    formatted "1:30.00" and relative diff "150.0%". -/
theorem c3_scenario3 :
    defaultTimeParser (.str "2:30.00") = .fin 150 ∧
    computePerformance (.str "2:30.00")
      [⟨"Fast", .num (.fin 30)⟩, ⟨"Moderate", .num (.fin 60)⟩, ⟨"Slow", .num .inf⟩] {} =
    .ok { label := "Slow", index := 2,
          standard := some ⟨"Slow", .num .inf⟩,
          nextStandard := some ⟨"Moderate", .num (.fin 60)⟩,
          nextCut := some ⟨"Moderate", "1:00.00"⟩,
          diffToNext := some ⟨.fin 90, .fin 150⟩,
          diffToNextFormatted := some ⟨"1:30.00", "150.0%"⟩,
          validation := ⟨true, []⟩ } :=
  ⟨by with_unfolding_all rfl, by with_unfolding_all rfl⟩

/-- Claim C4 (counterexample): a single-level list whose cut sequence is
    vacuously strictly increasing does not resolve to \x27higher\x27 — the code
    requires increasing AND not decreasing, so any list of fewer than two cuts
    falls into the non-monotonic branch: direction \x27lower\x27 with the
    inference-failure diagnostic, refuting the claim as stated. -/
theorem c4_counterexample_singleton_levels :
    inferCuts defaultParserFn [⟨"A", .num (.fin 10)⟩] ["A"] = .ok (some [.fin 10]) ∧
    List.Chain' (fun a b => JsNum.jlt a b = true) [JsNum.fin 10] ∧
    resolveDirection defaultParserFn [⟨"A", .num (.fin 10)⟩]
      { direction := some "auto", levels := some ["A"] } = .ok (.lower, [autoNonMonoMsg]) :=
  ⟨by with_unfolding_all rfl, by simp, by with_unfolding_all rfl⟩

/-- Claim C5 (counterexample): an infinite metric parses successfully (it is not
    NaN) and a next standard with a parseable finite cut exists, yet diffToNext
    is null and a diagnostic is pushed — the code gates the diff on
    Number.isFinite, not on parse success, refuting the claim as stated. -/
theorem c5_counterexample_infinite_metric :
    (defaultTimeParser (.num .inf)).isNaN = false ∧
    computePerformance (.num .inf)
      [⟨"Slow", .num .inf⟩, ⟨"Moderate", .num (.fin 60)⟩] {} =
    .ok { label := "Slow", index := 0, standard := some ⟨"Slow", .num .inf⟩,
          nextStandard := some ⟨"Moderate", .num (.fin 60)⟩,
          nextCut := some ⟨"Moderate", "1:00.00"⟩,
          diffToNext := none, diffToNextFormatted := none,
          validation := ⟨false, [cantDiffMsg]⟩ } :=
  ⟨by with_unfolding_all rfl, by with_unfolding_all rfl⟩

/-- Claim C6 (counterexample): an empty standards list with validationMode
    \x27throw\x27 does not raise — the empty-standards early return precedes the
    throw checkpoint, so the call returns the \x27unknown\x27 result, refuting
    the claim\x27s throw clause. -/
theorem c6_counterexample_empty_standards_throw :
    computePerformance (.num (.fin 10)) [] { validationMode := some "throw" } =
    .ok emptyStandardsResult ∧
    emptyStandardsResult.validation.valid = false := by
  exact ⟨by with_unfolding_all rfl, rfl⟩

/-- Claim C6 (amended): when the standards list is empty, computePerformance
    always returns a result with label \x27unknown\x27, index -1 and
    validation.valid false, and it never raises — for every metric and every
    options value, including validationMode \x27throw\x27. -/
theorem c6_empty_standards_returns :
    (∀ (metric : Value) (o : PerformanceOptions),
      computePerformance metric [] o = .ok emptyStandardsResult) ∧
    emptyStandardsResult.label = "unknown" ∧ emptyStandardsResult.index = -1 ∧
    emptyStandardsResult.validation.valid = false :=
  ⟨fun _ _ => rfl, rfl, rfl, rfl⟩

/-- Claim C7 (counterexample): a standards list with a duplicated label but no
    levels option produces no duplicate-label diagnostic at all — the duplicate
    check lives inside the `if (options?.levels)` block — so validation.errors
    is empty and the call is fully valid, refuting the claim\x27s "regardless of
    whether a levels option is supplied". -/
theorem c7_counterexample_duplicates_without_levels :
    computePerformance (.num (.fin 15)) [⟨"Dup", .str "10"⟩, ⟨"Dup", .str "20"⟩] {} =
    .ok { label := "Dup", index := 1, standard := some ⟨"Dup", .str "20"⟩,
          nextStandard := some ⟨"Dup", .str "10"⟩, nextCut := some ⟨"Dup", "10"⟩,
          diffToNext := some ⟨.fin 5, .fin 50⟩,
          diffToNextFormatted := some ⟨"05.00", "50.0%"⟩,
          validation := ⟨true, []⟩ } := by
  with_unfolding_all rfl

/-- Claim C8 (counterexample): for the input 89.996 seconds the default
    absolute formatter produces "1:29.100" — a one-digit minutes field and a
    three-digit fractional field (Math.round carries 99.6 up to 100 and pad2
    leaves "100" alone) — refuting "minutes and seconds always two digits, and
    exactly two fractional digits". -/
theorem c8_counterexample_formatter :
    defaultFormatAbsolute (.fin (89996/1000)) = "1:29.100" := by
  with_unfolding_all rfl

/-- Claim C9 (confirmed): the transformer applied to a label-to-cut mapping and
    a non-empty explicit level order returns standards whose labels are exactly
    the level order, in order, each cut being the raw mapping value for that
    label, passed through unmodified. -/
theorem c9_transformer_roundtrip (mapping : List (String × String)) (lvls : List String)
    (h : lvls ≠ []) :
    (transformSwimmingStandards mapping (some lvls)).map (fun s => s.label) = lvls ∧
    ∀ s ∈ transformSwimmingStandards mapping (some lvls),
      s.cut = recordGet mapping s.label := by
  have hne : lvls.isEmpty = false := by simpa using h
  constructor
  · simp only [transformSwimmingStandards, hne, Bool.not_false, if_true, List.map_map]
    have : ((fun (s : Standard) => s.label) ∘ fun label => Standard.mk label (recordGet mapping label)) = fun label => label := rfl
    rw [this, List.map_id']
  · intro s hs
    simp only [transformSwimmingStandards, hne, Bool.not_false, if_true] at hs
    obtain ⟨label, hl, hrfl⟩ := List.mem_map.mp hs
    rw [← hrfl]

/-- Witness for C9 at a concrete mapping and level order. -/
theorem c9_transformer_roundtrip_witness :
    (transformSwimmingStandards [("A", "57")] (some ["A", "B"])).map (fun s => s.label) =
      ["A", "B"] ∧
    ∀ s ∈ transformSwimmingStandards [("A", "57")] (some ["A", "B"]),
      s.cut = recordGet [("A", "57")] s.label :=
  c9_transformer_roundtrip [("A", "57")] ["A", "B"] (by simp)

/-- Claim C10 (confirmed): a standard whose cut parses to a non-finite number
    can be selected as the matched standard — shown concretely by the
    Infinity-cut \x27Slow\x27 standard being matched — but a standard returned as
    nextStandard always has a cut that parsed to a finite value, in both the
    matched and the unmatched branches. -/
theorem c10_next_standard_finite :
    (∀ (metric : Value) (standards : List Standard) (o : PerformanceOptions)
        (r : PerformanceResult) (s : Standard),
        computePerformance metric standards o = .ok r →
        r.nextStandard = some s →
        ∃ x, parseVal (parserOf o) s.cut = .ok x ∧ x.isFinite = true) ∧
    (computePerformance (.num (.fin 150))
        [⟨"Fast", .num (.fin 30)⟩, ⟨"Moderate", .num (.fin 60)⟩, ⟨"Slow", .num .inf⟩] {} =
      .ok { label := "Slow", index := 2, standard := some ⟨"Slow", .num .inf⟩,
            nextStandard := some ⟨"Moderate", .num (.fin 60)⟩,
            nextCut := some ⟨"Moderate", "1:00.00"⟩,
            diffToNext := some ⟨.fin 90, .fin 150⟩,
            diffToNextFormatted := some ⟨"1:30.00", "150.0%"⟩,
            validation := ⟨true, []⟩ } ∧
      (defaultTimeParser (.num .inf)).isFinite = false) := by
  constructor
  · intro metric standards o r s h hnext
    rcases computePerformance_ok_cases metric standards o r h with ⟨hemp, hr⟩ |
      ⟨d, errsD, errsV, mq, ns, errsC, hne, hrd, hvl, hmq, hbn, hbr⟩
    · rw [hr] at hnext
      simp [emptyStandardsResult] at hnext
    · rcases hbr with ⟨hml, hu⟩ | ⟨hml, hm⟩
      · obtain ⟨_, _, _, hns, _, _⟩ := unmatchedResult_fields _ _ _ _ _ _ _ _ hu
        rw [hns] at hnext
        by_cases hf : mq.isFinite
        · rw [if_pos hf] at hnext
          obtain ⟨e, hens, hes, hefin⟩ := nextFrom_spec _ _ _ _ hnext
          have hpe := buildNumeric_mem_parse (parserOf o) standards 0 ns errsC hbn e hens
          exact ⟨e.cutNum, by rw [← hes]; exact hpe, hefin⟩
        · rw [if_neg hf] at hnext
          cases hnext
      · obtain ⟨best, hbest, _, _, _, hns, _, _⟩ := matchedResult_fields _ _ _ _ _ _ _ _ _ hm
        rw [hns] at hnext
        obtain ⟨e, hens, hes, hefin⟩ := nextFrom_spec _ _ _ _ hnext
        have hpe := buildNumeric_mem_parse (parserOf o) standards 0 ns errsC hbn e hens
        exact ⟨e.cutNum, by rw [← hes]; exact hpe, hefin⟩
  · exact ⟨by with_unfolding_all rfl, rfl⟩

/-- Witness for C10: applying the universal part at Scenario 3 with a numeric
    metric, where nextStandard is the finite-cut \x27Moderate\x27 standard. -/
theorem c10_next_standard_finite_witness :
    ∃ x, parseVal (parserOf {}) (Value.num (.fin 60)) = .ok x ∧ x.isFinite = true :=
  c10_next_standard_finite.1 (.num (.fin 150))
    [⟨"Fast", .num (.fin 30)⟩, ⟨"Moderate", .num (.fin 60)⟩, ⟨"Slow", .num .inf⟩] {}
    { label := "Slow", index := 2, standard := some ⟨"Slow", .num .inf⟩,
      nextStandard := some ⟨"Moderate", .num (.fin 60)⟩,
      nextCut := some ⟨"Moderate", "1:00.00"⟩,
      diffToNext := some ⟨.fin 90, .fin 150⟩,
      diffToNextFormatted := some ⟨"1:30.00", "150.0%"⟩,
      validation := ⟨true, []⟩ }
    ⟨"Moderate", .num (.fin 60)⟩ (by with_unfolding_all rfl) rfl

/-- Claim C5 (amended): whenever a next standard exists and both the metric and
    its cut parsed to finite values, diffToNext.absolute is max(0, nextCut -
    metric) under direction \x27higher\x27 and max(0, metric - nextCut) under
    \x27lower\x27, and diffToNext.relative is (absolute / denom) * 100 with denom
    = |nextCut| when nonzero and 1 when the next cut is exactly zero, in both
    the matched and the unmatched branches. (The original claim\x27s
    "parsed successfully" is amended to "parsed to a finite value": an infinite
    metric parses successfully yet yields a null diff, see the
    counterexample.) -/
theorem c5_diff_formula (metric : Value) (standards : List Standard) (o : PerformanceOptions)
    (r : PerformanceResult) (s : Standard) (dirRes : Direction) (errsD : List String)
    (qm qc : ℚ)
    (hok : computePerformance metric standards o = .ok r)
    (hrd : resolveDirection (parserOf o) standards o = .ok (dirRes, errsD))
    (hmq : parseVal (parserOf o) metric = .ok (.fin qm))
    (hnext : r.nextStandard = some s)
    (hcq : parseVal (parserOf o) s.cut = .ok (.fin qc)) :
    r.diffToNext = some
      ⟨.fin (max 0 (match dirRes with | .higher => qc - qm | .lower => qm - qc)),
       .fin (max 0 (match dirRes with | .higher => qc - qm | .lower => qm - qc) /
         (if qc = 0 then 1 else |qc|) * 100)⟩ := by
  rcases computePerformance_ok_cases metric standards o r hok with ⟨hemp, hr⟩ |
    ⟨d, errsD2, errsV, mq, ns, errsC, hne, hrd2, hvl, hmq2, hbn, hbr⟩
  · rw [hr] at hnext
    simp [emptyStandardsResult] at hnext
  · have hdd : d = dirRes ∧ errsD2 = errsD := by
      have := hrd2.symm.trans hrd
      simpa [Prod.ext_iff] using this
    obtain ⟨hd1, hd2⟩ := hdd
    subst hd1
    have hmm : mq = .fin qm := by
      have := hmq2.symm.trans hmq
      simpa using this
    subst hmm
    have hf : (JsNum.fin qm).isFinite = true := rfl
    rcases hbr with ⟨hml, hu⟩ | ⟨hml, hm⟩
    · obtain ⟨_, _, _, hns, hdiff, _⟩ := unmatchedResult_fields _ _ _ _ _ _ _ _ hu
      rw [hns, if_pos hf] at hnext
      rw [hdiff, if_pos hf, hnext]
      have hlcut : lookupCutNum ns s = .fin qc := by
        obtain ⟨e, hens, hes, _⟩ := nextFrom_spec _ _ _ _ hnext
        exact lookupCutNum_eq (parserOf o) ns s (.fin qc)
          (buildNumeric_mem_parse _ _ _ _ _ hbn) ⟨e, hens, hes⟩ hcq
      have hfc : (JsNum.fin qc).isFinite = true := rfl
      simp only [unmatchedDiffStep, hlcut, hf, hfc, if_true]
      rw [computeDiffPair_fin]
      cases d <;> rfl
    · obtain ⟨best, hbest, _, _, _, hns, hdiff, _⟩ := matchedResult_fields _ _ _ _ _ _ _ _ _ hm
      rw [hns] at hnext
      rw [hdiff, hnext]
      have hlcut : lookupCutNum ns s = .fin qc := by
        obtain ⟨e, hens, hes, _⟩ := nextFrom_spec _ _ _ _ hnext
        exact lookupCutNum_eq (parserOf o) ns s (.fin qc)
          (buildNumeric_mem_parse _ _ _ _ _ hbn) ⟨e, hens, hes⟩ hcq
      have hfc : (JsNum.fin qc).isFinite = true := rfl
      simp only [matchedDiffStep, hlcut, hf, hfc, Bool.and_true, if_true]
      rw [computeDiffPair_fin]
      cases d <;> rfl

/-- Witness for C5: the formula evaluated at Scenario 3 with a numeric metric —
    direction \x27lower\x27, metric 150, next cut 60 gives absolute 90 and
    relative 150. -/
theorem c5_diff_formula_witness :
    ({ label := "Slow", index := 2, standard := some ⟨"Slow", .num .inf⟩,
       nextStandard := some ⟨"Moderate", .num (.fin 60)⟩,
       nextCut := some ⟨"Moderate", "1:00.00"⟩,
       diffToNext := some ⟨.fin 90, .fin 150⟩,
       diffToNextFormatted := some ⟨"1:30.00", "150.0%"⟩,
       validation := ⟨true, []⟩ } : PerformanceResult).diffToNext = some
      ⟨.fin (max 0 ((150 : ℚ) - 60)),
       .fin (max 0 ((150 : ℚ) - 60) / (if (60 : ℚ) = 0 then 1 else |(60 : ℚ)|) * 100)⟩ :=
  c5_diff_formula (.num (.fin 150))
    [⟨"Fast", .num (.fin 30)⟩, ⟨"Moderate", .num (.fin 60)⟩, ⟨"Slow", .num .inf⟩] {}
    { label := "Slow", index := 2, standard := some ⟨"Slow", .num .inf⟩,
      nextStandard := some ⟨"Moderate", .num (.fin 60)⟩,
      nextCut := some ⟨"Moderate", "1:00.00"⟩,
      diffToNext := some ⟨.fin 90, .fin 150⟩,
      diffToNextFormatted := some ⟨"1:30.00", "150.0%"⟩,
      validation := ⟨true, []⟩ }
    ⟨"Moderate", .num (.fin 60)⟩ .lower [] 150 60
    (by with_unfolding_all rfl) (by with_unfolding_all rfl) rfl rfl rfl

theorem chainInc_false_of_lt (a b : JsNum) (rest : List JsNum)
    (h : JsNum.jlt a b = true) : chainDec (a :: b :: rest) = false := by
  rw [chainDec, jlt_asymm a b h]
  rfl

theorem chainDec_false_of_lt (a b : JsNum) (rest : List JsNum)
    (h : JsNum.jlt b a = true) : chainInc (a :: b :: rest) = false := by
  rw [chainInc, jlt_asymm b a h]
  rfl

theorem chain_short_true (cuts : List JsNum) (h : cuts.length < 2) :
    chainInc cuts = true ∧ chainDec cuts = true := by
  cases cuts with
  | nil => exact ⟨rfl, rfl⟩
  | cons a t =>
    cases t with
    | nil => exact ⟨rfl, rfl⟩
    | cons b rest =>
      rw [List.length_cons, List.length_cons] at h
      omega

/-- Claim C4 (amended): under direction \x27auto\x27 with a levels list whose
    labels all resolve and whose cuts all parse, and at least two levels,
    strictly increasing cuts resolve to \x27higher\x27 and strictly decreasing
    cuts to \x27lower\x27, each with no diagnostic; a non-monotonic sequence
    yields the inference-failure diagnostic and falls back to \x27lower\x27, as
    does (the amendment) a levels list of fewer than two entries, whose cut
    sequence is vacuously monotonic; a missing label or unparsable cut yields
    the missing/invalid diagnostic and falls back to \x27lower\x27; a missing
    levels option yields the requires-levels diagnostic and \x27lower\x27. -/
theorem c4_auto_direction_inference :
    (∀ (p : ParserFn) (st : List Standard) (o : PerformanceOptions) (lvls : List String)
        (cuts : List JsNum),
        o.direction = some "auto" → o.levels = some lvls →
        inferCuts p st lvls = .ok (some cuts) → 2 ≤ lvls.length →
        List.Chain' (fun a b => JsNum.jlt a b = true) cuts →
        resolveDirection p st o = .ok (.higher, [])) ∧
    (∀ (p : ParserFn) (st : List Standard) (o : PerformanceOptions) (lvls : List String)
        (cuts : List JsNum),
        o.direction = some "auto" → o.levels = some lvls →
        inferCuts p st lvls = .ok (some cuts) → 2 ≤ lvls.length →
        List.Chain' (fun a b => JsNum.jlt b a = true) cuts →
        resolveDirection p st o = .ok (.lower, [])) ∧
    (∀ (p : ParserFn) (st : List Standard) (o : PerformanceOptions) (lvls : List String)
        (cuts : List JsNum),
        o.direction = some "auto" → o.levels = some lvls →
        inferCuts p st lvls = .ok (some cuts) →
        ¬ List.Chain' (fun a b => JsNum.jlt a b = true) cuts →
        ¬ List.Chain' (fun a b => JsNum.jlt b a = true) cuts →
        resolveDirection p st o = .ok (.lower, [autoNonMonoMsg])) ∧
    (∀ (p : ParserFn) (st : List Standard) (o : PerformanceOptions) (lvls : List String),
        o.direction = some "auto" → o.levels = some lvls →
        inferCuts p st lvls = .ok none →
        resolveDirection p st o = .ok (.lower, [autoMissingMsg])) ∧
    (∀ (p : ParserFn) (st : List Standard) (o : PerformanceOptions) (lvls : List String)
        (cuts : List JsNum),
        o.direction = some "auto" → o.levels = some lvls →
        inferCuts p st lvls = .ok (some cuts) → lvls.length < 2 →
        resolveDirection p st o = .ok (.lower, [autoNonMonoMsg])) ∧
    (∀ (p : ParserFn) (st : List Standard) (o : PerformanceOptions),
        o.direction = some "auto" → o.levels = none →
        resolveDirection p st o = .ok (.lower, [autoNeedLevelsMsg])) := by
  refine ⟨?_, ?_, ?_, ?_, ?_, ?_⟩
  · intro p st o lvls cuts hdir hlv hic hlen hchain
    rw [resolveDirection, hdir, hlv]
    have hlc : cuts.length = lvls.length := inferCuts_length p st lvls cuts hic
    obtain ⟨a, b, rest, rfl⟩ : ∃ a b rest, cuts = a :: b :: rest := by
      cases cuts with
      | nil => simp at hlc; omega
      | cons a t =>
        cases t with
        | nil => simp at hlc; omega
        | cons b rest => exact ⟨a, b, rest, rfl⟩
    have hab : JsNum.jlt a b = true := (List.chain'_cons.mp hchain).1
    have hinc : chainInc (a :: b :: rest) = true := (chainInc_iff _).mpr hchain
    have hdec := chainInc_false_of_lt a b rest hab
    simp [hic, hinc, hdec]
  · intro p st o lvls cuts hdir hlv hic hlen hchain
    rw [resolveDirection, hdir, hlv]
    have hlc : cuts.length = lvls.length := inferCuts_length p st lvls cuts hic
    obtain ⟨a, b, rest, rfl⟩ : ∃ a b rest, cuts = a :: b :: rest := by
      cases cuts with
      | nil => simp at hlc; omega
      | cons a t =>
        cases t with
        | nil => simp at hlc; omega
        | cons b rest => exact ⟨a, b, rest, rfl⟩
    have hab : JsNum.jlt b a = true := (List.chain'_cons.mp hchain).1
    have hdec : chainDec (a :: b :: rest) = true := (chainDec_iff _).mpr hchain
    have hinc := chainDec_false_of_lt a b rest hab
    simp [hic, hinc, hdec]
  · intro p st o lvls cuts hdir hlv hic hninc hndec
    rw [resolveDirection, hdir, hlv]
    have hinc : chainInc cuts = false := by
      rw [← Bool.not_eq_true]
      rw [chainInc_iff]
      exact hninc
    have hdec : chainDec cuts = false := by
      rw [← Bool.not_eq_true]
      rw [chainDec_iff]
      exact hndec
    simp [hic, hinc, hdec]
  · intro p st o lvls hdir hlv hic
    rw [resolveDirection, hdir, hlv]
    simp [hic]
  · intro p st o lvls cuts hdir hlv hic hlen
    rw [resolveDirection, hdir, hlv]
    have hlc : cuts.length = lvls.length := inferCuts_length p st lvls cuts hic
    obtain ⟨h1, h2⟩ := chain_short_true cuts (by omega)
    simp [hic, h1, h2]
  · intro p st o hdir hlv
    rw [resolveDirection, hdir, hlv]
    simp

/-- Witness for C4: two increasing levels resolve the direction to
    \x27higher\x27 with no diagnostic. -/
theorem c4_auto_direction_inference_witness :
    resolveDirection defaultParserFn [⟨"Low", .num (.fin 10)⟩, ⟨"High", .num (.fin 20)⟩]
      { direction := some "auto", levels := some ["Low", "High"] } = .ok (.higher, []) :=
  c4_auto_direction_inference.1 defaultParserFn
    [⟨"Low", .num (.fin 10)⟩, ⟨"High", .num (.fin 20)⟩]
    { direction := some "auto", levels := some ["Low", "High"] }
    ["Low", "High"] [.fin 10, .fin 20] rfl rfl (by with_unfolding_all rfl) (by decide)
    (List.chain'_pair.mpr (by with_unfolding_all rfl))

theorem floor_div_3600 (v : ℚ) : ⌊v / 3600⌋₊ = ⌊v⌋₊ / 3600 := by
  have := Nat.floor_div_nat v 3600
  norm_num at this
  exact this

theorem floor_nat_add_fract (n : ℕ) (f : ℚ) (h0 : 0 ≤ f) (h1 : f < 1) :
    ⌊(n : ℚ) + f⌋₊ = n := by
  rw [add_comm, Nat.floor_add_nat h0, Nat.floor_eq_zero.mpr h1, zero_add]

theorem jsMod_decomp (v : ℚ) (b : ℕ) :
    jsMod v b = ((⌊v⌋₊ % b : ℕ) : ℚ) + (v - (⌊v⌋₊ : ℚ)) := by
  rw [jsMod]
  have hfd : ⌊v / b⌋₊ = ⌊v⌋₊ / b := Nat.floor_div_nat v b
  rw [hfd]
  have hdm := Nat.div_add_mod ⌊v⌋₊ b
  have hq : (b : ℚ) * ((⌊v⌋₊ / b : ℕ) : ℚ) + ((⌊v⌋₊ % b : ℕ) : ℚ) = (⌊v⌋₊ : ℚ) := by
    exact_mod_cast hdm
  linarith

theorem fract_nonneg_of_nonneg (v : ℚ) (hv : 0 ≤ v) : 0 ≤ v - (⌊v⌋₊ : ℚ) :=
  sub_nonneg.mpr (Nat.floor_le hv)

theorem fract_lt_one (v : ℚ) : v - (⌊v⌋₊ : ℚ) < 1 := by
  have := Nat.lt_floor_add_one v
  linarith

theorem minutes_eq (v : ℚ) (hv : 0 ≤ v) : ⌊jsMod v 3600 / 60⌋₊ = ⌊v⌋₊ % 3600 / 60 := by
  have hc : (3600 : ℚ) = ((3600 : ℕ) : ℚ) := by norm_num
  rw [hc, jsMod_decomp v 3600]
  have hfd := Nat.floor_div_nat (((⌊v⌋₊ % 3600 : ℕ) : ℚ) + (v - (⌊v⌋₊ : ℚ))) 60
  norm_num at hfd ⊢
  rw [hfd, floor_nat_add_fract _ _ (fract_nonneg_of_nonneg v hv) (fract_lt_one v)]

theorem seconds_eq (v : ℚ) (hv : 0 ≤ v) : ⌊jsMod v 60⌋₊ = ⌊v⌋₊ % 60 := by
  have hc : (60 : ℚ) = ((60 : ℕ) : ℚ) := by norm_num
  rw [hc, jsMod_decomp v 60]
  exact floor_nat_add_fract _ _ (fract_nonneg_of_nonneg v hv) (fract_lt_one v)

/-- Claim C8 (amended): the default absolute formatter renders a finite value v
    with a \x27-\x27 prefix when negative and then, writing N for the integer
    second count and splitting N into hours/minutes/seconds, H:MM:SS.ff when at
    least one hour, M:SS.ff when at least one minute, SS.ff otherwise; the
    LEADING field (hours, or minutes in the M:SS.ff form) is not zero-padded,
    the non-leading fields are two-digit padded, and the fractional field ff is
    round((v - floor v) * 100) rendered through the same two-digit pad — a
    value that can reach 100 and then prints as three digits (no carry into the
    seconds). -/
theorem c8_format_absolute_shape :
    (∀ q : ℚ,
      defaultFormatAbsolute (.fin q) =
        (if 0 < ⌊|q|⌋₊ / 3600 then
          (if q < 0 then "-" else "") ++ toString (⌊|q|⌋₊ / 3600) ++ ":" ++
            pad2 (⌊|q|⌋₊ % 3600 / 60) ++ ":" ++ pad2 (⌊|q|⌋₊ % 60) ++ "." ++
            pad2 ⌊(|q| - (⌊|q|⌋₊ : ℚ)) * 100 + 1 / 2⌋₊
        else if 0 < ⌊|q|⌋₊ % 3600 / 60 then
          (if q < 0 then "-" else "") ++ toString (⌊|q|⌋₊ % 3600 / 60) ++ ":" ++
            pad2 (⌊|q|⌋₊ % 60) ++ "." ++ pad2 ⌊(|q| - (⌊|q|⌋₊ : ℚ)) * 100 + 1 / 2⌋₊
        else
          (if q < 0 then "-" else "") ++ pad2 (⌊|q|⌋₊ % 60) ++ "." ++
            pad2 ⌊(|q| - (⌊|q|⌋₊ : ℚ)) * 100 + 1 / 2⌋₊)) ∧
    (∀ q : ℚ, ⌊(|q| - (⌊|q|⌋₊ : ℚ)) * 100 + 1 / 2⌋₊ ≤ 100) ∧
    (pad2 100).length = 3 ∧ (∀ n : ℕ, n ≤ 99 → (pad2 n).length = 2) := by
  refine ⟨?_, ?_, ?_, ?_⟩
  · intro q
    have hv : (0:ℚ) ≤ |q| := abs_nonneg q
    simp only [defaultFormatAbsolute]
    rw [floor_div_3600, minutes_eq _ hv, seconds_eq _ hv]
  · intro q
    have h1 : |q| - (⌊|q|⌋₊ : ℚ) < 1 := fract_lt_one |q|
    have h0 : (0:ℚ) ≤ |q| - (⌊|q|⌋₊ : ℚ) := fract_nonneg_of_nonneg |q| (abs_nonneg q)
    have hfl : ⌊(|q| - (⌊|q|⌋₊ : ℚ)) * 100 + 1 / 2⌋₊ < 101 := by
      rw [Nat.floor_lt (by linarith)]
      push_cast
      linarith
    omega
  · with_unfolding_all rfl
  · intro n hn
    interval_cases n <;> rfl

/-- Witness for the padded-width clause of C8 at a concrete two-digit value. -/
theorem c8_format_absolute_shape_witness : (pad2 99).length = 2 :=
  c8_format_absolute_shape.2.2.2 99 (by decide)

theorem dupMsg_head (L : String) : (dupMsg L).data.head? = some 'D' := rfl

theorem dupMsg_inj (a b : String) (h : dupMsg a = dupMsg b) : a = b := by
  have hd := congrArg String.data h
  simp only [dupMsg, String.data_append] at hd
  exact String.ext (List.append_cancel_left (List.append_cancel_right hd))

theorem count_dup_zero_of_heads (L : String) (l : List String)
    (h : ∀ m ∈ l, ∃ c, m.data.head? = some c ∧ c ≠ 'D') :
    List.count (dupMsg L) l = 0 := by
  apply List.count_eq_zero.mpr
  intro hmem
  obtain ⟨c, hc, hne⟩ := h _ hmem
  rw [dupMsg_head] at hc
  exact hne (by simpa using hc.symm)

theorem resolveDirection_errors_head (p : ParserFn) (st : List Standard)
    (o : PerformanceOptions) (d : Direction) (es : List String)
    (h : resolveDirection p st o = .ok (d, es)) :
    ∀ m ∈ es, ∃ c, m.data.head? = some c ∧ c ≠ 'D' := by
  intro m hm
  refine ⟨'A', ?_, by decide⟩
  rw [resolveDirection] at h
  split_ifs at h with h1 h2 h3
  · have hes : es = [] := ((by simpa [Prod.ext_iff] using h) : Direction.higher = d ∧ es = []).2
    rw [hes] at hm
    cases hm
  · have hes : es = [] := ((by simpa [Prod.ext_iff] using h) : Direction.lower = d ∧ es = []).2
    rw [hes] at hm
    cases hm
  · cases holv : o.levels with
    | none =>
      rw [holv] at h
      simp only [] at h
      have hes : es = [autoNeedLevelsMsg] :=
        (((by simpa [Prod.ext_iff] using h) :
          Direction.lower = d ∧ [autoNeedLevelsMsg] = es).2).symm
      rw [hes] at hm
      rcases List.mem_singleton.mp hm with rfl
      rfl
    | some lvls =>
      rw [holv] at h
      simp only [] at h
      cases hic : inferCuts p st lvls with
      | error e => rw [hic] at h; cases h
      | ok oc =>
        rw [hic] at h
        cases oc with
        | none =>
          simp only [] at h
          have hes : es = [autoMissingMsg] :=
            (((by simpa [Prod.ext_iff] using h) :
              Direction.lower = d ∧ [autoMissingMsg] = es).2).symm
          rw [hes] at hm
          rcases List.mem_singleton.mp hm with rfl
          rfl
        | some cuts =>
          simp only [] at h
          split_ifs at h with h4 h5
          · have hes : es = [] :=
              ((by simpa [Prod.ext_iff] using h) : Direction.higher = d ∧ es = []).2
            rw [hes] at hm
            cases hm
          · have hes : es = [] :=
              ((by simpa [Prod.ext_iff] using h) : Direction.lower = d ∧ es = []).2
            rw [hes] at hm
            cases hm
          · have hes : es = [autoNonMonoMsg] :=
              (((by simpa [Prod.ext_iff] using h) :
                Direction.lower = d ∧ [autoNonMonoMsg] = es).2).symm
            rw [hes] at hm
            rcases List.mem_singleton.mp hm with rfl
            rfl
  · have hes : es = [] := ((by simpa [Prod.ext_iff] using h) : Direction.lower = d ∧ es = []).2
    rw [hes] at hm
    cases hm

theorem missingErrors_head (st : List Standard) (lvls : List String) :
    ∀ m ∈ missingErrors st lvls, ∃ c, m.data.head? = some c ∧ c ≠ 'D' := by
  intro m hm
  rw [missingErrors] at hm
  obtain ⟨lvl, _, hsome⟩ := List.mem_filterMap.mp hm
  refine ⟨'L', ?_, by decide⟩
  by_cases hc : st.any (fun s => s.label == lvl)
  · rw [if_pos hc] at hsome; cases hsome
  · rw [if_neg hc] at hsome
    obtain rfl : missingLevelMsg lvl = m := by simpa using hsome
    rfl

theorem pairCheck_errors_head (p : ParserFn) (st : List Standard) (d : Direction)
    (a b : String) (es : List String) (h : pairCheck p st d a b = .ok es) :
    ∀ m ∈ es, ∃ c, m.data.head? = some c ∧ c ≠ 'D' := by
  intro m hm
  rw [pairCheck] at h
  cases hma : mapGet st a with
  | none =>
    rw [hma] at h
    obtain rfl : ([] : List String) = es := by simpa using h
    cases hm
  | some lowStd =>
    rw [hma] at h
    cases hmb : mapGet st b with
    | none =>
      rw [hmb] at h
      obtain rfl : ([] : List String) = es := by simpa using h
      cases hm
    | some highStd =>
      rw [hmb] at h
      simp only [] at h
      cases hpl : parseVal p lowStd.cut with
      | error e => rw [hpl] at h; cases h
      | ok lowCut =>
        rw [hpl] at h
        cases hph : parseVal p highStd.cut with
        | error e => rw [hph] at h; cases h
        | ok highCut =>
          rw [hph] at h
          cases d with
          | lower =>
            simp only [] at h
            split_ifs at h with h1 h2
            · obtain rfl : [unparsePairMsg a b] = es := by simpa using h
              rcases List.mem_singleton.mp hm with rfl
              exact ⟨'U', rfl, by decide⟩
            · obtain rfl : [orderingMsg a lowCut b highCut Direction.lower] = es := by
                simpa using h
              rcases List.mem_singleton.mp hm with rfl
              exact ⟨'O', rfl, by decide⟩
            · obtain rfl : ([] : List String) = es := by simpa using h
              cases hm
          | higher =>
            simp only [] at h
            split_ifs at h with h1 h2
            · obtain rfl : [unparsePairMsg a b] = es := by simpa using h
              rcases List.mem_singleton.mp hm with rfl
              exact ⟨'U', rfl, by decide⟩
            · obtain rfl : [orderingMsg a lowCut b highCut Direction.higher] = es := by
                simpa using h
              rcases List.mem_singleton.mp hm with rfl
              exact ⟨'O', rfl, by decide⟩
            · obtain rfl : ([] : List String) = es := by simpa using h
              cases hm

theorem pairChecks_errors_head (p : ParserFn) (st : List Standard) (d : Direction) :
    ∀ (prs : List (String × String)) (es : List String),
      pairChecks p st d prs = .ok es →
      ∀ m ∈ es, ∃ c, m.data.head? = some c ∧ c ≠ 'D'
  | [], es => by
    intro h m hm
    obtain rfl : ([] : List String) = es := by simpa [pairChecks] using h
    cases hm
  | (a, b) :: rest, es => by
    intro h m hm
    rw [pairChecks] at h
    cases hpc : pairCheck p st d a b with
    | error e => rw [hpc] at h; cases h
    | ok es1 =>
      rw [hpc] at h
      cases hrest : pairChecks p st d rest with
      | error e => rw [hrest] at h; cases h
      | ok es2 =>
        rw [hrest] at h
        obtain rfl : es1 ++ es2 = es := by simpa using h
        rcases List.mem_append.mp hm with h1 | h2
        · exact pairCheck_errors_head p st d a b es1 hpc m h1
        · exact pairChecks_errors_head p st d rest es2 hrest m h2

theorem buildNumeric_errors_head (p : ParserFn) :
    ∀ (st : List Standard) (i : ℕ) (ns : List NumStd) (es : List String),
      buildNumeric p i st = .ok (ns, es) →
      ∀ m ∈ es, ∃ c, m.data.head? = some c ∧ c ≠ 'D'
  | [], _, ns, es => by
    intro h m hm
    simp only [buildNumeric, Except.ok.injEq, Prod.mk.injEq] at h
    rw [← h.2] at hm
    cases hm
  | s :: rest, i, ns, es => by
    intro h m hm
    simp only [buildNumeric] at h
    cases hp : parseVal p s.cut with
    | error err => rw [hp] at h; cases h
    | ok c =>
      rw [hp] at h
      cases hr : buildNumeric p (i + 1) rest with
      | error err => rw [hr] at h; cases h
      | ok pr =>
        obtain ⟨ns2, es2⟩ := pr
        rw [hr] at h
        simp only [Except.ok.injEq, Prod.mk.injEq] at h
        rw [← h.2] at hm
        rcases List.mem_append.mp hm with h1 | h2
        · by_cases hn : c.isNaN
          · rw [if_pos hn] at h1
            rcases List.mem_singleton.mp h1 with rfl
            exact ⟨'U', rfl, by decide⟩
          · rw [if_neg hn] at h1
            cases h1
        · exact buildNumeric_errors_head p rest (i + 1) ns2 es2 hr m h2

theorem dupErrors_count (L : String) :
    ∀ (st : List Standard) (seen : List String),
      List.count (dupMsg L) (dupErrors st seen) =
        (if L ∈ seen then st.countP (fun s => s.label == L)
         else st.countP (fun s => s.label == L) - 1)
  | [], seen => by simp [dupErrors]
  | s :: rest, seen => by
    rw [dupErrors, List.count_append, dupErrors_count L rest (s.label :: seen),
      List.countP_cons]
    by_cases hsl : s.label = L
    · subst hsl
      have hmem : s.label ∈ s.label :: seen := List.mem_cons_self _ _
      rw [if_pos hmem]
      by_cases hseen : s.label ∈ seen
      · rw [if_pos hseen, if_pos hseen]
        have hone : List.count (dupMsg s.label) [dupMsg s.label] = 1 := by simp
        simp only [hone, beq_self_eq_true, if_true]
        omega
      · rw [if_neg hseen, if_neg hseen]
        simp only [List.count_nil]
        have hc : rest.countP (fun x => x.label == s.label) + 1 - 1 =
            rest.countP (fun x => x.label == s.label) := by omega
        simp [hc]
    · have h1 : List.count (dupMsg L) (if s.label ∈ seen then [dupMsg s.label] else []) = 0 := by
        split_ifs
        · simp only [List.count_singleton]
          simp only [beq_iff_eq]
          rw [if_neg (fun hh => hsl (dupMsg_inj _ _ hh))]
        · simp
      rw [h1]
      have h2 : (L ∈ s.label :: seen) ↔ L ∈ seen := by
        simp [List.mem_cons]
        intro hL
        exact absurd hL.symm hsl
      have h3 : (s.label == L) = false := by simpa [beq_iff_eq] using hsl
      rw [h3]
      simp only [if_false, Bool.false_eq_true, add_zero]
      by_cases hseen : L ∈ seen
      · rw [if_pos (h2.mpr hseen), if_pos hseen]
        omega
      · rw [if_neg (fun hh => hseen (h2.mp hh)), if_neg hseen]
        omega

theorem foldl_lastWins {α : Type} (p : α → Bool) :
    ∀ (l : List α) (acc : Option α),
      l.foldl (fun acc s => if p s then some s else acc) acc =
        (match l.reverse.find? p with
         | some x => some x
         | none => acc)
  | [], acc => rfl
  | s :: rest, acc => by
    rw [List.foldl_cons, foldl_lastWins p rest, List.reverse_cons, List.find?_append]
    cases hf : rest.reverse.find? p with
    | some x => simp [Option.or]
    | none =>
      simp only [Option.or]
      cases hps : p s <;> simp [List.find?, hps]

/-- The labelToStd Map resolves a label to the LAST standard carrying it. -/
theorem mapGet_lastSeen (st : List Standard) (L : String) :
    mapGet st L = st.reverse.find? (fun s => s.label == L) := by
  rw [mapGet, foldl_lastWins]
  cases st.reverse.find? (fun s => s.label == L) <;> rfl

theorem unmatchedDiffStep_errs (fA fR : JsNum → String) (ns : List NumStd) (mq : JsNum)
    (d : Direction) (ob : Option Standard) :
    (unmatchedDiffStep fA fR ns mq d ob).2.2 = [] ∨
    (unmatchedDiffStep fA fR ns mq d ob).2.2 = [nextCutErrMsg] := by
  cases ob with
  | none => left; rfl
  | some nb =>
    rw [unmatchedDiffStep]
    by_cases h1 : mq.isFinite = true
    · rw [if_pos h1]
      simp only []
      by_cases h2 : (lookupCutNum ns nb).isFinite = true
      · rw [if_pos h2]
        left
        rfl
      · rw [if_neg h2]
        right
        rfl
    · rw [if_neg h1]
      left
      rfl

theorem matchedDiffStep_errs (ns : List NumStd) (mq : JsNum) (d : Direction)
    (ob : Option Standard) :
    (matchedDiffStep ns mq d ob).2 = [] ∨ (matchedDiffStep ns mq d ob).2 = [cantDiffMsg] := by
  cases ob with
  | none => left; rfl
  | some nx =>
    simp only [matchedDiffStep]
    by_cases h1 : ((lookupCutNum ns nx).isFinite && mq.isFinite) = true
    · rw [if_pos h1]
      left
      rfl
    · rw [if_neg h1]
      right
      rfl

/-- Claim C7 (amended): duplicate labels are flagged once per repeat only when a
    levels option is supplied — the duplicate check lives inside the levels
    validation block, so without levels no duplicate diagnostic is emitted (see
    the counterexample) — and the label-to-standard Map lookup used during
    inference and ordering validation resolves to the LAST-seen standard with a
    given label, since each Map.set overwrites the earlier entry. -/
theorem c7_duplicate_diagnostics :
    (∀ (metric : Value) (standards : List Standard) (o : PerformanceOptions)
        (lvls : List String) (r : PerformanceResult) (L : String),
        o.levels = some lvls →
        computePerformance metric standards o = .ok r →
        List.count (dupMsg L) r.validation.errors =
          standards.countP (fun s => s.label == L) - 1) ∧
    (∀ (standards : List Standard) (L : String),
        mapGet standards L = standards.reverse.find? (fun s => s.label == L)) := by
  constructor
  · intro metric standards o lvls r L holv hok
    rcases computePerformance_ok_cases metric standards o r hok with ⟨hemp, hr⟩ |
      ⟨d, errsD, errsV, mq, ns, errsC, hne, hrd, hvl, hmq, hbn, hbr⟩
    · rw [hr]
      have hst : standards = [] := List.isEmpty_iff.mp hemp
      subst hst
      have hz : List.count (dupMsg L) [stdEmptyMsg] = 0 := by
        apply List.count_eq_zero.mpr
        intro hmem
        have heq := List.mem_singleton.mp hmem
        have hD : (dupMsg L).data.head? = stdEmptyMsg.data.head? :=
          congrArg (fun t : String => t.data.head?) heq
        rw [dupMsg_head] at hD
        exact absurd hD (by decide)
      simpa [emptyStandardsResult] using hz
    · unfold validateLevels at hvl
      rw [holv] at hvl
      simp only [] at hvl
      cases hpc : pairChecks (parserOf o) standards d (levelPairs lvls) with
      | error e => rw [hpc] at hvl; cases hvl
      | ok ord =>
        rw [hpc] at hvl
        have hesv : dupErrors standards [] ++ missingErrors standards lvls ++ ord = errsV := by
          simpa using hvl
        have hcountv : List.count (dupMsg L) errsV =
            standards.countP (fun s => s.label == L) - 1 := by
          rw [← hesv, List.count_append, List.count_append]
          rw [dupErrors_count L standards []]
          rw [count_dup_zero_of_heads L _ (missingErrors_head standards lvls)]
          rw [count_dup_zero_of_heads L _ (pairChecks_errors_head _ _ _ _ _ hpc)]
          simp
        have hcountD : List.count (dupMsg L) errsD = 0 :=
          count_dup_zero_of_heads L _ (resolveDirection_errors_head _ _ _ _ _ hrd)
        have hcountC : List.count (dupMsg L) errsC = 0 :=
          count_dup_zero_of_heads L _ (buildNumeric_errors_head _ _ _ _ _ hbn)
        have hcountM :
            List.count (dupMsg L) (if mq.isNaN = true then [metricErrMsg] else []) = 0 := by
          split_ifs
          · apply count_dup_zero_of_heads
            intro m hm
            rcases List.mem_singleton.mp hm with rfl
            exact ⟨'U', rfl, by decide⟩
          · rfl
        rcases hbr with ⟨hml, hu⟩ | ⟨hml, hm⟩
        · obtain ⟨_, _, _, _, _, herr⟩ := unmatchedResult_fields _ _ _ _ _ _ _ _ hu
          rw [herr]
          have hstep : List.count (dupMsg L)
              (unmatchedDiffStep (fmtAOf o) (fmtROf o) ns mq d
                (if mq.isFinite = true then nextFrom ns mq d else none)).2.2 = 0 := by
            rcases unmatchedDiffStep_errs (fmtAOf o) (fmtROf o) ns mq d
                (if mq.isFinite = true then nextFrom ns mq d else none) with he | he <;>
              rw [he]
            · rfl
            · apply count_dup_zero_of_heads
              intro m hm2
              rcases List.mem_singleton.mp hm2 with rfl
              exact ⟨'U', rfl, by decide⟩
          rw [List.count_append, List.count_append, List.count_append, List.count_append,
            hcountD, hcountv, hcountM, hcountC, hstep]
          omega
        · obtain ⟨best, hbest, _, _, _, _, _, herr⟩ := matchedResult_fields _ _ _ _ _ _ _ _ _ hm
          rw [herr]
          have hstep : List.count (dupMsg L)
              (matchedDiffStep ns mq d (nextFrom ns best.cutNum d)).2 = 0 := by
            rcases matchedDiffStep_errs ns mq d (nextFrom ns best.cutNum d) with he | he <;>
              rw [he]
            · rfl
            · apply count_dup_zero_of_heads
              intro m hm2
              rcases List.mem_singleton.mp hm2 with rfl
              exact ⟨'U', rfl, by decide⟩
          rw [List.count_append, List.count_append, List.count_append, List.count_append,
            hcountD, hcountv, hcountM, hcountC, hstep]
          omega
  · exact mapGet_lastSeen

/-- Witness for C7: two standards labelled Dup with levels supplied produce the
    duplicate diagnostic exactly once (2 occurrences - 1). -/
theorem c7_duplicate_diagnostics_witness :
    List.count (dupMsg "Dup")
      ({ label := "Dup", index := 1, standard := some ⟨"Dup", .str "20"⟩,
         nextStandard := some ⟨"Dup", .str "10"⟩, nextCut := some ⟨"Dup", "10"⟩,
         diffToNext := some ⟨.fin 5, .fin 50⟩,
         diffToNextFormatted := some ⟨"05.00", "50.0%"⟩,
         validation := ⟨false, [dupMsg "Dup"]⟩ } : PerformanceResult).validation.errors =
      ([⟨"Dup", .str "10"⟩, ⟨"Dup", .str "20"⟩] : List Standard).countP
        (fun s => s.label == "Dup") - 1 :=
  c7_duplicate_diagnostics.1 (.num (.fin 15)) [⟨"Dup", .str "10"⟩, ⟨"Dup", .str "20"⟩]
    { levels := some ["Dup"] } ["Dup"]
    { label := "Dup", index := 1, standard := some ⟨"Dup", .str "20"⟩,
      nextStandard := some ⟨"Dup", .str "10"⟩, nextCut := some ⟨"Dup", "10"⟩,
      diffToNext := some ⟨.fin 5, .fin 50⟩,
      diffToNextFormatted := some ⟨"05.00", "50.0%"⟩,
      validation := ⟨false, [dupMsg "Dup"]⟩ }
    "Dup" rfl (by with_unfolding_all rfl)
